import Mathlib

/-!
# A verification development for the DoucyA / PeerChain blockchain

This file is a shallow embedding, in Lean 4, of the core consensus and
replication engine of the DoucyA blockchain (a JavaScript program):

* `src/blockchain/transaction.js` — the `Transaction` value type with its
  JSON-based content hash (`calculateHash` / `verifyHash`);
* `src/blockchain/blockchain.js` — the ledger engine: per-type transaction
  validity (`isTransactionValid`), per-type state transitions
  (`processTransaction` and friends), block persistence (`saveBlock`),
  and the validator block reward (`processValidatorRewards`);
* `src/blockchain/validator.js` — the stake registry
  (`registerValidator`, `selectNextValidator`);
* `src/network/p2p-node.js` / `src/node.js` — the peer synchronization
  loop (`syncWithPeer`), the gossip block handler (`handleBlockMessage`)
  and the local message rate limiter (`sendMessage`,
  `checkMessageRateLimits`, `updateMessageCount`).

Modelling conventions:

* JavaScript numbers (used for amounts, fees, stakes and rewards) are
  modelled as rationals `ℚ`; block heights as integers `ℤ` (the code uses
  `-1` as the "no chain yet" height).
* SHA-256 over `JSON.stringify(txData)` is modelled injectively: the
  "hash" of a transaction is the serialized key/value structure itself
  (the preimage).  `JSON.stringify` drops object keys whose value is
  `undefined`; the model makes that explicit, because the `Transaction`
  constructor computes the hash *before* the `senderReward` /
  `receiverReward` fields are assigned.
* The LevelDB balance table (`BALANCE_<addr>` keys, default 0 on a
  missing key) is modelled as a total function `String → ℚ`; JavaScript
  `Map`s that are iterated in insertion order (the validator registry)
  are modelled as association lists `List (String × ℚ)`.
* Database writes that never influence balances, heights or the
  validator registry (the `TX_<hash>`, `BLOCK_<hash>`, inbox/outbox and
  address-history records) are not part of the state.
-/

/-! ## JSON values and the transaction hash preimage

`transaction.js` hashes `JSON.stringify(txData)` where `txData` is an
object literal with up to nine keys, in source order.  A key whose value
is `undefined` is *omitted* by `JSON.stringify`.  We model the hash of a
transaction as the serialized structure itself (idealizing SHA-256 as
injective), i.e. as the list of key/value pairs actually serialized. -/

/-- A primitive JSON value (enough for the `data` objects this program
builds: message payloads, whitelist actions, block heights). -/
inductive JPrim where
  | null : JPrim
  | bool (b : Bool) : JPrim
  | num (q : ℚ) : JPrim
  | str (s : String) : JPrim
deriving DecidableEq, Repr

/-- A flat JSON object, as used for `Transaction.data`. -/
abbrev JObj := List (String × JPrim)

/-- A field value inside the hashed `txData` object: a primitive or the
nested `data` object. -/
inductive JField where
  | prim (p : JPrim) : JField
  | obj (o : JObj) : JField
deriving DecidableEq, Repr

/-- The serialized content of `JSON.stringify(txData)`: the key/value
pairs that actually appear (an `undefined` field appears not at all).
This stands for the SHA-256 digest of that string. -/
abbrev HashPreimage := List (String × JField)

/-- `null`-or-string, as JavaScript's `from` / `to` serialize. -/
def JField.ofOptStr : Option String → JField
  | none => .prim .null
  | some s => .prim (.str s)

/-! ## The Transaction value type (`src/blockchain/transaction.js`) -/

/-- Embeds a constructed `Transaction` object.  `from` is a Lean keyword,
so the `from` / `to` fields are named `fromAddr` / `toAddr`.  Transaction
types are the literal strings of the source (`'TRANSFER'`, `'MINT'`,
`'REWARD'`, `'VALIDATOR_REGISTER'`, `'VALIDATOR_WITHDRAW'`, `'MESSAGE'`,
`'WHITELIST'`). -/
structure Transaction where
  type : String
  fromAddr : Option String
  toAddr : Option String
  amount : ℚ
  fee : ℚ
  data : JObj
  timestamp : ℤ
  hash : HashPreimage
  signature : Option String
  senderReward : ℚ
  receiverReward : ℚ
deriving DecidableEq, Repr

/-- The serialized `txData` object of `calculateHash`.  The two reward
fields are passed as `Option ℚ` because `JSON.stringify` omits them when
the corresponding object fields are still `undefined` (which is the case
at the point in the constructor where the hash is computed). -/
def txDataPreimage (type : String) (fromAddr toAddr : Option String)
    (amount fee : ℚ) (data : JObj) (timestamp : ℤ)
    (senderReward receiverReward : Option ℚ) : HashPreimage :=
  [("type", .prim (.str type)),
   ("from", JField.ofOptStr fromAddr),
   ("to", JField.ofOptStr toAddr),
   ("amount", .prim (.num amount)),
   ("fee", .prim (.num fee)),
   ("data", .obj data),
   ("timestamp", .prim (.num (timestamp : ℚ)))]
  ++ (match senderReward with
      | none => []
      | some q => [("senderReward", JField.prim (.num q))])
  ++ (match receiverReward with
      | none => []
      | some q => [("receiverReward", JField.prim (.num q))])

/-- `Transaction.calculateHash()` called on a fully-constructed object:
every field, including `senderReward` and `receiverReward`, is defined
and therefore serialized. -/
def Transaction.calculateHash (t : Transaction) : HashPreimage :=
  txDataPreimage t.type t.fromAddr t.toAddr t.amount t.fee t.data
    t.timestamp (some t.senderReward) (some t.receiverReward)

/-- `data.senderReward || 0` — the numeric value of a key of the `data`
object, with JavaScript's falsy fallback to `0` (a missing key is
`undefined`, hence `0`; a present `0` is falsy, hence also `0`). -/
def JObj.numOr0 (o : JObj) (key : String) : ℚ :=
  match o.lookup key with
  | some (.num q) => q
  | _ => 0

/-- The `Transaction` constructor.  Field assignments happen in source
order: `this.hash = this.calculateHash()` runs *before*
`this.senderReward` / `this.receiverReward` are assigned, so at hashing
time those two fields are `undefined` and `JSON.stringify` omits their
keys; only afterwards are they set to `data.senderReward || 0` /
`data.receiverReward || 0`. -/
def Transaction.make (type : String) (fromAddr toAddr : Option String)
    (amount fee : ℚ) (data : JObj) (timestamp : ℤ) : Transaction :=
  { type := type
    fromAddr := fromAddr
    toAddr := toAddr
    amount := amount
    fee := fee
    data := data
    timestamp := timestamp
    hash := txDataPreimage type fromAddr toAddr amount fee data timestamp none none
    signature := none
    senderReward := data.numOr0 "senderReward"
    receiverReward := data.numOr0 "receiverReward" }

/-- `Transaction.verifyHash()`: the stored hash equals its recomputation
over the current fields. -/
def Transaction.verifyHash (t : Transaction) : Bool :=
  decide (t.hash = t.calculateHash)

/-- `Transaction.createMessage(from, to, message, isWhitelisted)`.  Note
that the source passes the rewards as a *seventh* argument to the
six-parameter constructor, so they are silently dropped. -/
def Transaction.createMessage (fromAddr toAddr message : String)
    (isWhitelisted : Bool) (timestamp : ℤ) : Transaction :=
  let fee : ℚ := if isWhitelisted then 0 else 3/4
  Transaction.make "MESSAGE" (some fromAddr) (some toAddr) 0 fee
    [("message", .str message), ("isWhitelisted", .bool isWhitelisted)]
    timestamp

/-- A transaction whose `hash` field was re-assigned with
`tx.hash = tx.calculateHash()` after construction (as
`processValidatorRewards` and `calculateMonthlyValidatorRewards` do);
such a transaction is hash-consistent. -/
def Transaction.withRecomputedHash (t : Transaction) : Transaction :=
  { t with hash := t.calculateHash }

theorem Transaction.verifyHash_withRecomputedHash (t : Transaction) :
    t.withRecomputedHash.verifyHash = true := by
  simp [Transaction.verifyHash, Transaction.withRecomputedHash,
    Transaction.calculateHash]

/-! ## C1: the stored hash vs its recomputation after construction -/

/-- Stored-hash preimage of a freshly constructed transaction: the two
reward keys are omitted. -/
theorem make_hash_eq (type : String) (fromAddr toAddr : Option String)
    (amount fee : ℚ) (data : JObj) (timestamp : ℤ) :
    (Transaction.make type fromAddr toAddr amount fee data timestamp).hash.length = 7 := by
  simp [Transaction.make, txDataPreimage]

/-- C1.  Claimed: for every transaction built by the `Transaction`
constructor, the stored `hash` equals its recomputation, i.e.
`verifyHash()` returns `true` immediately after construction.  The code
refutes this for *every* argument tuple: the constructor computes
`this.hash` before assigning `this.senderReward` / `this.receiverReward`,
so the stored hash's JSON preimage has seven keys while the recomputation
serializes nine; `verifyHash()` is `false` on every freshly constructed
transaction (and consequently `addTransaction` rejects every transaction
this program itself builds). -/
theorem c1_verifyHash_false_after_construction
    (type : String) (fromAddr toAddr : Option String)
    (amount fee : ℚ) (data : JObj) (timestamp : ℤ) :
    (Transaction.make type fromAddr toAddr amount fee data timestamp).verifyHash = false := by
  apply decide_eq_false
  intro h
  have hlen := congrArg List.length h
  simp [Transaction.make, Transaction.calculateHash, txDataPreimage] at hlen

/-! ## Association-list maps (JavaScript `Map`, insertion ordered)

The validator registry (`this.validators`) is a JavaScript `Map` from
address to staked amount, iterated in insertion order by
`selectNextValidator` and `saveValidators`. -/

/-- `Map.get(k)` — first binding of `k`, if any. -/
def vget : List (String × ℚ) → String → Option ℚ
  | [], _ => none
  | (k, v) :: rest, a => if k = a then some v else vget rest a

/-- `Map.has(k)`. -/
def vhas (m : List (String × ℚ)) (a : String) : Bool :=
  (vget m a).isSome

/-- `Map.set(k, v)` — replace in place (keeping insertion order) or
append. -/
def vset : List (String × ℚ) → String → ℚ → List (String × ℚ)
  | [], a, x => [(a, x)]
  | (k, v) :: rest, a, x =>
    if k = a then (a, x) :: rest else (k, v) :: vset rest a x

/-- `Map.delete(k)`. -/
def vdelete : List (String × ℚ) → String → List (String × ℚ)
  | [], _ => []
  | (k, v) :: rest, a =>
    if k = a then rest else (k, v) :: vdelete rest a

theorem vget_vset (m : List (String × ℚ)) (a b : String) (x : ℚ) :
    vget (vset m a x) b = if a = b then some x else vget m b := by
  induction m with
  | nil => by_cases h : a = b <;> simp [vset, vget, h]
  | cons p rest ih =>
    obtain ⟨k, v⟩ := p
    by_cases hka : k = a
    · by_cases hab : a = b <;> simp [vset, vget, hka, hab]
    · by_cases hkb : k = b
      · have hab : ¬ a = b := fun h => hka (h ▸ hkb)
        have hba : ¬ b = a := fun h => hka (hkb.trans h)
        simp [vset, vget, hka, hkb, hab, hba]
      · simp [vset, vget, hka, hkb, ih]

theorem vhas_iff (m : List (String × ℚ)) (a : String) :
    vhas m a = true ↔ ∃ x, vget m a = some x := by
  simp [vhas, Option.isSome_iff_exists]

/-! ## Blocks and chain state (`src/blockchain/blockchain.js`) -/

/-- A block.  The block's own hash is opaque here (no claim depends on
block hashing), heights are integers (`-1` encodes "no chain yet" in the
network layer). -/
structure Block where
  height : ℤ
  previousHash : String
  transactions : List Transaction
  validator : String
  timestamp : ℤ
  hash : String
  signature : Option String
deriving DecidableEq, Repr

/-- The LevelDB key fragment for an address field: JavaScript template
literals render `null` as the string `"null"` (`BALANCE_null`). -/
def keyOf : Option String → String
  | none => "null"
  | some s => s

/-- The mutable ledger state a node holds: the `BALANCE_<addr>` table
(total, default 0), the validator `Map`, the `WHITELIST_<addr>` lists,
the `LATEST_BLOCK` record and `this.currentHeight`.  Pure record stores
(`TX_<hash>`, block-by-hash records, inboxes/outboxes, address history)
are omitted: nothing in them feeds back into these components. -/
structure ChainState where
  balances : String → ℚ
  validators : List (String × ℚ)
  whitelists : String → List (Option String)
  latest : Option Block
  currentHeight : ℤ

/-- `processTransferTransaction`: both balances are read *before* either
write, then the sender is written, then the recipient — so a
self-transfer nets `+amount`, not `-fee`. -/
def processTransferTransaction (st : ChainState) (t : Transaction) : ChainState :=
  let senderBalance := st.balances (keyOf t.fromAddr)
  let recipientBalance := st.balances (keyOf t.toAddr)
  let b1 := Function.update st.balances (keyOf t.fromAddr)
    (senderBalance - t.amount - t.fee)
  let b2 := Function.update b1 (keyOf t.toAddr) (recipientBalance + t.amount)
  { st with balances := b2 }

/-- `processMintTransaction` / `processRewardTransaction`: credit `to`. -/
def processCreditTransaction (st : ChainState) (t : Transaction) : ChainState :=
  let recipientBalance := st.balances (keyOf t.toAddr)
  let b1 := Function.update st.balances (keyOf t.toAddr) (recipientBalance + t.amount)
  { st with balances := b1 }

/-- `processValidatorRegistration`: debit `amount + fee` from the sender
and accumulate the stake in the validator `Map`. -/
def processValidatorRegistration (st : ChainState) (t : Transaction) : ChainState :=
  let senderBalance := st.balances (keyOf t.fromAddr)
  let currentStake := (vget st.validators (keyOf t.fromAddr)).getD 0
  { st with
    balances := Function.update st.balances (keyOf t.fromAddr)
      (senderBalance - t.amount - t.fee)
    validators := vset st.validators (keyOf t.fromAddr) (currentStake + t.amount) }

/-- `processValidatorWithdrawal`: throws `'Not a validator'` before any
mutation when the sender is unknown; otherwise returns the stake minus
the fee to the balance and deletes the registry entry. -/
def processValidatorWithdrawal (st : ChainState) (t : Transaction) :
    Except ChainState ChainState :=
  match vget st.validators (keyOf t.fromAddr) with
  | none => .error st
  | some stakedAmount =>
    let senderBalance := st.balances (keyOf t.fromAddr)
    .ok { st with
      balances := Function.update st.balances (keyOf t.fromAddr)
        (senderBalance + stakedAmount - t.fee)
      validators := vdelete st.validators (keyOf t.fromAddr) }

/-- `processMessageTransaction`: a positive fee is burned from the
sender; otherwise a positive `senderReward` is credited to the sender;
independently a positive `receiverReward` is credited to the recipient
(the recipient read happens after the sender write). -/
def processMessageTransaction (st : ChainState) (t : Transaction) : ChainState :=
  let b1 :=
    if t.fee > 0 then
      Function.update st.balances (keyOf t.fromAddr)
        (st.balances (keyOf t.fromAddr) - t.fee)
    else if t.senderReward > 0 then
      Function.update st.balances (keyOf t.fromAddr)
        (st.balances (keyOf t.fromAddr) + t.senderReward)
    else st.balances
  let b2 :=
    if t.receiverReward > 0 then
      Function.update b1 (keyOf t.toAddr) (b1 (keyOf t.toAddr) + t.receiverReward)
    else b1
  { st with balances := b2 }

/-- `processWhitelistTransaction`: add/remove `to` on `from`'s whitelist;
any internal error is caught and logged, never thrown. -/
def processWhitelistTransaction (st : ChainState) (t : Transaction) : ChainState :=
  let wl := st.whitelists (keyOf t.fromAddr)
  let wl' :=
    if t.data.lookup "action" = some (.str "add") then
      if t.toAddr ∈ wl then wl else wl ++ [t.toAddr]
    else if t.data.lookup "action" = some (.str "remove") then
      wl.filter (· ≠ t.toAddr)
    else wl
  { st with whitelists := Function.update st.whitelists (keyOf t.fromAddr) wl' }

/-- `processTransaction` applied to a real `Transaction` *instance* (a
constructor-built object, the only kind held in the pending pool and
processed by locally produced blocks).  Its first statement,
`db.put('TX_' + hash, JSON.stringify(transaction.toJSON()))`, is then a
non-throwing write to the unmodelled `TX_<hash>` record store, so it
does not appear in the state; for a *plain* JSON object — as
`Block.fromJSON` leaves inside network-fetched blocks — that same
statement throws `TypeError: transaction.toJSON is not a function`
before any balance write, which is modelled separately by
`saveBlockFromNetwork` below.  After the record write: dispatch on the
type string; the switch has no default case, so an unknown type is a
no-op.  The only throwing arm is `VALIDATOR_WITHDRAW` on a
non-validator; the error carries the state at the throw (prior writes
persist). -/
def processTx (st : ChainState) (t : Transaction) : Except ChainState ChainState :=
  if t.type = "TRANSFER" then .ok (processTransferTransaction st t)
  else if t.type = "MINT" then .ok (processCreditTransaction st t)
  else if t.type = "REWARD" then .ok (processCreditTransaction st t)
  else if t.type = "VALIDATOR_REGISTER" then .ok (processValidatorRegistration st t)
  else if t.type = "VALIDATOR_WITHDRAW" then processValidatorWithdrawal st t
  else if t.type = "MESSAGE" then .ok (processMessageTransaction st t)
  else if t.type = "WHITELIST" then .ok (processWhitelistTransaction st t)
  else .ok st

/-- The transaction loop of `saveBlock`: apply in sequence; an exception
aborts the rest of the list (earlier writes persist), reported as
`false`. -/
def processTxList : ChainState → List Transaction → ChainState × Bool
  | st, [] => (st, true)
  | st, t :: rest =>
    match processTx st t with
    | .ok st' => processTxList st' rest
    | .error st' => (st', false)

/-- The genesis branch of `saveBlock`: `MINT` entries with a truthy `to`
have their balance *set* (not credited) to the amount. -/
def genesisBalances (balances : String → ℚ) : List Transaction → (String → ℚ)
  | [] => balances
  | t :: rest =>
    let balances' :=
      if t.type = "MINT" then
        match t.toAddr with
        | some a => if a = "" then balances else Function.update balances a t.amount
        | none => balances
      else balances
    genesisBalances balances' rest

/-- `saveBlock`, for a block whose transactions are `Transaction`
instances (locally produced blocks): persist the block (the
`LATEST_BLOCK` record is written before the transactions are processed;
the `BLOCK_<hash>` / `BLOCK_HEIGHT_<n>` records are unmodelled), process
every transaction for height > 0 — with **no check of the block's height
against `currentHeight`** — and finally set `currentHeight` to the
block's height.  The `Bool` reports whether the transaction loop ran to
completion (`saveBlock` rethrows otherwise, after the writes so far).
For blocks deserialized from the network see `saveBlockFromNetwork`. -/
def saveBlock (st : ChainState) (b : Block) : ChainState × Bool :=
  let st0 := { st with latest := some b }
  if b.height > 0 then
    let (st1, ok) := processTxList st0 b.transactions
    if ok then ({ st1 with currentHeight := b.height }, true) else (st1, false)
  else
    ({ st0 with
        balances := genesisBalances st0.balances b.transactions
        currentHeight := b.height }, true)

/-! ## Validator block rewards (`processValidatorRewards`) -/

/-- The fold of `processValidatorRewards` over the block's transactions:
every fee is added; for a `MESSAGE` transaction a truthy (non-zero)
`senderReward` / `receiverReward` additionally contributes 150% of
itself. -/
def blockTotalReward (txs : List Transaction) : ℚ :=
  txs.foldl
    (fun acc t =>
      let acc1 := acc + t.fee
      if t.type = "MESSAGE" then
        let acc2 := if t.senderReward ≠ 0 then acc1 + t.senderReward * (3/2) else acc1
        if t.receiverReward ≠ 0 then acc2 + t.receiverReward * (3/2) else acc2
      else acc1)
    0

/-- `processValidatorRewards(validatorAddress, block)`: credit the
computed total to the validator's balance (the reward transaction record
itself is only stored, never run through the transition function). -/
def processValidatorRewards (validatorAddress : String) (b : Block)
    (balances : String → ℚ) : String → ℚ :=
  Function.update balances validatorAddress
    (balances validatorAddress + blockTotalReward b.transactions)

/-- Sum of all transaction fees of a block. -/
def feeSum (txs : List Transaction) : ℚ :=
  (txs.map Transaction.fee).sum

/-- Sum of `senderReward + receiverReward` over the `MESSAGE`
transactions of a block. -/
def messageRewardSum (txs : List Transaction) : ℚ :=
  ((txs.filter (fun t => t.type = "MESSAGE")).map
    (fun t => t.senderReward + t.receiverReward)).sum

theorem blockTotalReward_step (acc : ℚ) (t : Transaction) (txs : List Transaction) :
    List.foldl
      (fun acc t =>
        let acc1 := acc + t.fee
        if t.type = "MESSAGE" then
          let acc2 := if t.senderReward ≠ 0 then acc1 + t.senderReward * (3/2) else acc1
          if t.receiverReward ≠ 0 then acc2 + t.receiverReward * (3/2) else acc2
        else acc1)
      acc (t :: txs) =
    List.foldl
      (fun acc t =>
        let acc1 := acc + t.fee
        if t.type = "MESSAGE" then
          let acc2 := if t.senderReward ≠ 0 then acc1 + t.senderReward * (3/2) else acc1
          if t.receiverReward ≠ 0 then acc2 + t.receiverReward * (3/2) else acc2
        else acc1)
      (acc + t.fee +
        (if t.type = "MESSAGE" then t.senderReward * (3/2) + t.receiverReward * (3/2) else 0))
      txs := by
  simp only [List.foldl_cons]
  congr 1
  by_cases hm : t.type = "MESSAGE"
  · by_cases hs : t.senderReward = 0 <;> by_cases hr : t.receiverReward = 0 <;>
      simp [hm, hs, hr] <;> ring
  · simp [hm]

theorem blockTotalReward_shift (txs : List Transaction) (acc : ℚ) :
    List.foldl
      (fun acc t =>
        let acc1 := acc + t.fee
        if t.type = "MESSAGE" then
          let acc2 := if t.senderReward ≠ 0 then acc1 + t.senderReward * (3/2) else acc1
          if t.receiverReward ≠ 0 then acc2 + t.receiverReward * (3/2) else acc2
        else acc1)
      acc txs = acc + blockTotalReward txs := by
  induction txs generalizing acc with
  | nil => simp [blockTotalReward]
  | cons t rest ih =>
    rw [blockTotalReward_step, ih]
    have hc : blockTotalReward (t :: rest) =
        (t.fee +
          (if t.type = "MESSAGE" then t.senderReward * (3/2) + t.receiverReward * (3/2) else 0)) +
        blockTotalReward rest := by
      show List.foldl _ 0 (t :: rest) = _
      rw [blockTotalReward_step, ih]
      ring
    rw [hc]
    ring

theorem blockTotalReward_eq (txs : List Transaction) :
    blockTotalReward txs = feeSum txs + (3/2) * messageRewardSum txs := by
  induction txs with
  | nil => simp [blockTotalReward, feeSum, messageRewardSum]
  | cons t rest ih =>
    have hc : blockTotalReward (t :: rest) =
        (t.fee +
          (if t.type = "MESSAGE" then t.senderReward * (3/2) + t.receiverReward * (3/2) else 0)) +
        blockTotalReward rest := by
      show List.foldl _ 0 (t :: rest) = _
      rw [blockTotalReward_step, blockTotalReward_shift]
      ring
    by_cases hm : t.type = "MESSAGE" <;>
      simp [feeSum, messageRewardSum, hc, ih, List.filter_cons, hm] <;> ring

/-- C5.  Confirmed: after `processValidatorRewards`, the producing
validator's balance has increased by exactly the sum of the fees of the
block's transactions plus 1.5 times the sum of `senderReward` and
`receiverReward` of every `MESSAGE` transaction in the block. -/
theorem c5_validator_reward_exact (validatorAddress : String) (b : Block)
    (balances : String → ℚ) :
    processValidatorRewards validatorAddress b balances validatorAddress =
      balances validatorAddress + (feeSum b.transactions +
        (3/2) * messageRewardSum b.transactions) := by
  rw [processValidatorRewards, Function.update_same, blockTotalReward_eq]

/-! ## C2: the balance-sum effect of applying a block -/

/-- Sum of the balances of the addresses in `S` (the claim's
"sum of all address balances", taken over any finite address set that
contains every address the block touches; all other addresses keep their
balance, so their contribution cancels). -/
def sumOn (S : Finset String) (f : String → ℚ) : ℚ :=
  ∑ a ∈ S, f a

theorem sumOn_update (S : Finset String) (f : String → ℚ) (a : String) (v : ℚ)
    (h : a ∈ S) : sumOn S (Function.update f a v) = sumOn S f + (v - f a) := by
  rw [sumOn, sumOn, Finset.sum_update_of_mem h, Finset.sdiff_singleton_eq_erase,
    ← Finset.add_sum_erase S f h]
  ring

/-- The sum of the amounts of the `MINT` and `REWARD` transactions of a
block — the quantity the claim says the balance sum grows by. -/
def mintRewardAmountSum (txs : List Transaction) : ℚ :=
  ((txs.filter (fun t => t.type = "MINT" ∨ t.type = "REWARD")).map
    Transaction.amount).sum

/-- The actual change of the balance sum caused by one processed
transaction (for the five non-validator types): `MINT`/`REWARD` create
`amount`; `TRANSFER` burns the fee — except that a self-transfer
(`from` and `to` the same key) nets `+amount`, because both balances are
read before either is written; `WHITELIST` is neutral; `MESSAGE` burns a
positive fee, or credits a positive `senderReward`, and additionally
credits a positive `receiverReward`. -/
def txDelta (t : Transaction) : ℚ :=
  if t.type = "MINT" ∨ t.type = "REWARD" then t.amount
  else if t.type = "TRANSFER" then
    (if keyOf t.fromAddr = keyOf t.toAddr then t.amount else -t.fee)
  else if t.type = "MESSAGE" then
    (if t.fee > 0 then -t.fee else if t.senderReward > 0 then t.senderReward else 0) +
    (if t.receiverReward > 0 then t.receiverReward else 0)
  else 0

theorem sumOn_processTransfer (S : Finset String) (st : ChainState)
    (t : Transaction) (hf : keyOf t.fromAddr ∈ S) (ht : keyOf t.toAddr ∈ S) :
    sumOn S (processTransferTransaction st t).balances =
      sumOn S st.balances +
        (if keyOf t.fromAddr = keyOf t.toAddr then t.amount else -t.fee) := by
  by_cases h : keyOf t.fromAddr = keyOf t.toAddr
  · simp only [processTransferTransaction, h, if_pos]
    rw [Function.update_idem, sumOn_update _ _ _ _ ht]
    ring
  · simp only [processTransferTransaction]
    rw [sumOn_update _ _ _ _ ht, sumOn_update _ _ _ _ hf,
      Function.update_noteq (fun hh => h hh.symm), if_neg h]
    ring

theorem sumOn_processCredit (S : Finset String) (st : ChainState)
    (t : Transaction) (ht : keyOf t.toAddr ∈ S) :
    sumOn S (processCreditTransaction st t).balances =
      sumOn S st.balances + t.amount := by
  simp only [processCreditTransaction]
  rw [sumOn_update _ _ _ _ ht]
  ring

theorem sumOn_processMessage (S : Finset String) (st : ChainState)
    (t : Transaction) (hf : keyOf t.fromAddr ∈ S) (ht : keyOf t.toAddr ∈ S) :
    sumOn S (processMessageTransaction st t).balances =
      sumOn S st.balances +
        ((if t.fee > 0 then -t.fee else if t.senderReward > 0 then t.senderReward else 0) +
         (if t.receiverReward > 0 then t.receiverReward else 0)) := by
  simp only [processMessageTransaction]
  by_cases hfee : t.fee > 0 <;> by_cases hsr : t.senderReward > 0 <;>
    by_cases hrr : t.receiverReward > 0 <;>
    simp only [hfee, hsr, hrr, if_pos, if_neg, if_true, if_false, ite_true, ite_false,
      not_true, not_false_iff] <;>
    first
    | (rw [sumOn_update _ _ _ _ ht, sumOn_update _ _ _ _ hf]; ring)
    | (rw [sumOn_update _ _ _ _ ht]; ring)
    | (rw [sumOn_update _ _ _ _ hf]; ring)
    | ring

theorem sumOn_processWhitelist (S : Finset String) (st : ChainState)
    (t : Transaction) :
    sumOn S (processWhitelistTransaction st t).balances = sumOn S st.balances := by
  simp [processWhitelistTransaction]

/-- The five transaction types whose processing never throws and leaves
the validator registry untouched. -/
def fiveNonValidatorTypes : List String :=
  ["MINT", "REWARD", "TRANSFER", "WHITELIST", "MESSAGE"]

theorem processTx_five (S : Finset String) (st : ChainState) (t : Transaction)
    (htype : t.type ∈ fiveNonValidatorTypes)
    (hf : keyOf t.fromAddr ∈ S) (ht : keyOf t.toAddr ∈ S) :
    ∃ st', processTx st t = .ok st' ∧
      sumOn S st'.balances = sumOn S st.balances + txDelta t := by
  simp only [fiveNonValidatorTypes, List.mem_cons, List.not_mem_nil, or_false] at htype
  rcases htype with h | h | h | h | h
  · exact ⟨processCreditTransaction st t, by simp [processTx, h],
      by rw [sumOn_processCredit S st t ht]; simp [txDelta, h]⟩
  · exact ⟨processCreditTransaction st t, by simp [processTx, h],
      by rw [sumOn_processCredit S st t ht]; simp [txDelta, h]⟩
  · exact ⟨processTransferTransaction st t, by simp [processTx, h],
      by rw [sumOn_processTransfer S st t hf ht]; simp [txDelta, h]⟩
  · exact ⟨processWhitelistTransaction st t, by simp [processTx, h],
      by rw [sumOn_processWhitelist S st t]; simp [txDelta, h]⟩
  · exact ⟨processMessageTransaction st t, by simp [processTx, h],
      by rw [sumOn_processMessage S st t hf ht]; simp [txDelta, h]⟩

theorem processTxList_sum (S : Finset String) :
    ∀ (txs : List Transaction) (st : ChainState),
      (∀ t ∈ txs, t.type ∈ fiveNonValidatorTypes) →
      (∀ t ∈ txs, keyOf t.fromAddr ∈ S ∧ keyOf t.toAddr ∈ S) →
      ∃ st1, processTxList st txs = (st1, true) ∧
        sumOn S st1.balances = sumOn S st.balances + (txs.map txDelta).sum
  | [], st, _, _ => ⟨st, rfl, by simp⟩
  | t :: rest, st, htypes, haddrs => by
    obtain ⟨st', hok, hsum⟩ :=
      processTx_five S st t (htypes t (List.mem_cons_self t rest))
        (haddrs t (List.mem_cons_self t rest)).1 (haddrs t (List.mem_cons_self t rest)).2
    obtain ⟨st1, hrest, hsum1⟩ :=
      processTxList_sum S rest st' (fun u hu => htypes u (List.mem_cons_of_mem t hu))
        (fun u hu => haddrs u (List.mem_cons_of_mem t hu))
    refine ⟨st1, ?_, ?_⟩
    · simp only [processTxList, hok, hrest]
    · rw [hsum1, hsum]
      simp only [List.map_cons, List.sum_cons]
      ring

/-- Auxiliary: a list of nonpositive rationals has nonpositive sum. -/
theorem list_sum_nonpos : ∀ l : List ℚ, (∀ x ∈ l, x ≤ 0) → l.sum ≤ 0
  | [], _ => le_refl 0
  | x :: xs, h => by
    have hx := h x (List.mem_cons_self x xs)
    have hxs := list_sum_nonpos xs (fun y hy => h y (List.mem_cons_of_mem x hy))
    simp only [List.sum_cons]
    linarith

/-- C2 (amended).  For an applied block (height > 0) whose transactions
are all of the five non-validator types, with every touched address
inside the finite set `S`: the application succeeds, and the balance sum
over `S` changes by exactly the sum of the per-transaction deltas
`txDelta` — `amount` for `MINT`/`REWARD`, `-fee` for a non-self
`TRANSFER`, `0` for `WHITELIST`, and for `MESSAGE` the credited rewards
or the burned fee.  In particular blocks of non-self `TRANSFER`s with
nonnegative fees and `WHITELIST`s never increase the sum, while a
whitelisted `MESSAGE` (positive rewards, zero fee) increases it. -/
theorem c2_block_sum_amended (S : Finset String) (st : ChainState) (b : Block)
    (hh : 0 < b.height)
    (htypes : ∀ t ∈ b.transactions, t.type ∈ fiveNonValidatorTypes)
    (haddrs : ∀ t ∈ b.transactions, keyOf t.fromAddr ∈ S ∧ keyOf t.toAddr ∈ S) :
    (saveBlock st b).2 = true ∧
    sumOn S (saveBlock st b).1.balances =
      sumOn S st.balances + (b.transactions.map txDelta).sum ∧
    ((∀ t ∈ b.transactions,
        (t.type = "TRANSFER" ∧ 0 ≤ t.fee ∧ keyOf t.fromAddr ≠ keyOf t.toAddr) ∨
          t.type = "WHITELIST") →
      sumOn S (saveBlock st b).1.balances ≤ sumOn S st.balances) := by
  obtain ⟨st1, hrun, hsum⟩ :=
    processTxList_sum S b.transactions { st with latest := some b } htypes haddrs
  have hsave : saveBlock st b = ({ st1 with currentHeight := b.height }, true) := by
    rw [saveBlock, if_pos hh, hrun]
    simp
  have hbal : sumOn S (saveBlock st b).1.balances =
      sumOn S st.balances + (b.transactions.map txDelta).sum := by
    rw [hsave]
    exact hsum
  refine ⟨by rw [hsave], hbal, ?_⟩
  intro hneutral
  rw [hbal]
  have hnp : (b.transactions.map txDelta).sum ≤ 0 := by
    refine list_sum_nonpos _ ?_
    intro x hx
    obtain ⟨t, htmem, rfl⟩ := List.mem_map.1 hx
    rcases hneutral t htmem with ⟨htr, hfee, hne⟩ | hwl
    · have hd : txDelta t = -t.fee := by simp [txDelta, htr, hne]
      rw [hd]
      linarith
    · simp [txDelta, hwl]
  linarith

/-- A whitelisted message transaction as `saveBlock` receives it from the
network: zero fee, positive sender and receiver rewards. -/
def c2CexTx : Transaction :=
  { type := "MESSAGE", fromAddr := some "Doua", toAddr := some "Doub",
    amount := 0, fee := 0, data := [], timestamp := 0, hash := [],
    signature := none, senderReward := 3/4, receiverReward := 1/4 }

/-- A height-1 block containing only `c2CexTx`. -/
def c2CexBlock : Block :=
  { height := 1, previousHash := "genesis", transactions := [c2CexTx],
    validator := "Douv", timestamp := 0, hash := "blk1", signature := none }

/-- The all-zero ledger state. -/
def c2CexState : ChainState :=
  { balances := fun _ => 0, validators := [], whitelists := fun _ => [],
    latest := none, currentHeight := 0 }

/-- C2 (counterexample).  Applying the block `c2CexBlock` — a single
whitelisted `MESSAGE` transaction, no `MINT` or `REWARD` — raises the
balance sum by 1, not by the `MINT`/`REWARD` amount sum 0: a `MESSAGE`
transaction can increase the total balance sum. -/
theorem c2_counterexample :
    sumOn {"Doua", "Doub"} (saveBlock c2CexState c2CexBlock).1.balances -
        sumOn {"Doua", "Doub"} c2CexState.balances ≠
      mintRewardAmountSum c2CexBlock.transactions := by
  have htypes : ∀ t ∈ c2CexBlock.transactions, t.type ∈ fiveNonValidatorTypes := by
    intro t ht
    simp only [c2CexBlock, List.mem_singleton] at ht
    simp [ht, c2CexTx, fiveNonValidatorTypes]
  have haddrs : ∀ t ∈ c2CexBlock.transactions,
      keyOf t.fromAddr ∈ ({"Doua", "Doub"} : Finset String) ∧
      keyOf t.toAddr ∈ ({"Doua", "Doub"} : Finset String) := by
    intro t ht
    simp only [c2CexBlock, List.mem_singleton] at ht
    simp [ht, c2CexTx, keyOf]
  obtain ⟨st1, hrun, hsum⟩ :=
    processTxList_sum {"Doua", "Doub"} c2CexBlock.transactions
      { c2CexState with latest := some c2CexBlock } htypes haddrs
  have hsave : saveBlock c2CexState c2CexBlock =
      ({ st1 with currentHeight := c2CexBlock.height }, true) := by
    rw [saveBlock, if_pos (show (0 : ℤ) < c2CexBlock.height by decide), hrun]
    simp
  have hdelta : (c2CexBlock.transactions.map txDelta).sum = 1 := by
    have hd : txDelta c2CexTx = 1 := by
      norm_num [txDelta, c2CexTx, keyOf]
      simp
    simp [c2CexBlock, hd]
  have hzero : sumOn {"Doua", "Doub"} c2CexState.balances = 0 := by
    simp [sumOn, c2CexState]
  have hMR : mintRewardAmountSum c2CexBlock.transactions = 0 := by
    simp [mintRewardAmountSum, c2CexBlock, c2CexTx]
  rw [hsave] at *
  have hafter : sumOn {"Doua", "Doub"}
      ({ st1 with currentHeight := c2CexBlock.height }, true).1.balances = 1 := by
    show sumOn _ st1.balances = 1
    rw [hsum, hdelta]
    have : sumOn {"Doua", "Doub"}
        ({ c2CexState with latest := some c2CexBlock } : ChainState).balances = 0 := hzero
    rw [this]
    norm_num
  rw [hafter, hzero, hMR]
  norm_num

/-! ## C2 witness block: a plain MINT block accepted by `saveBlock` -/

/-- A `MINT` transaction crediting 5 DOU to `Doux`. -/
def c2WitTx : Transaction :=
  { type := "MINT", fromAddr := none, toAddr := some "Doux",
    amount := 5, fee := 0, data := [], timestamp := 0, hash := [],
    signature := none, senderReward := 0, receiverReward := 0 }

/-- A height-1 block containing only `c2WitTx`. -/
def c2WitBlock : Block :=
  { height := 1, previousHash := "genesis", transactions := [c2WitTx],
    validator := "Douv", timestamp := 0, hash := "wit1", signature := none }

/-- Witness for `c2_block_sum_amended`: its hypotheses are satisfied by
the concrete block `c2WitBlock` over the all-zero state. -/
theorem c2_block_sum_amended_witness :
    (saveBlock c2CexState c2WitBlock).2 = true ∧
    sumOn {"null", "Doux"} (saveBlock c2CexState c2WitBlock).1.balances =
      sumOn {"null", "Doux"} c2CexState.balances +
        (c2WitBlock.transactions.map txDelta).sum := by
  have h := c2_block_sum_amended {"null", "Doux"} c2CexState c2WitBlock
    (by decide)
    (by
      intro t ht
      simp only [c2WitBlock, List.mem_singleton] at ht
      simp [ht, c2WitTx, fiveNonValidatorTypes])
    (by
      intro t ht
      simp only [c2WitBlock, List.mem_singleton] at ht
      simp [ht, c2WitTx, keyOf])
  exact ⟨h.1, h.2.1⟩

/-! ## The network layer (`src/network/p2p-node.js`)

`handleBlockMessage` is the gossip path: it checks height, linkage and
signature before calling `saveBlock`.  `syncWithPeer` is the sync path:
after learning the peer's height it requests the missing blocks one by
one and passes each response straight to `saveBlock` — with no check at
all on the returned block. -/

/-- What the gossip handler did with an incoming block. -/
inductive GossipResult where
  | ignoredHeight : GossipResult
  | triggeredSync : GossipResult
  | badPrevHash : GossipResult
  | badSignature : GossipResult
  | applied : GossipResult
deriving DecidableEq, Repr

/-- `handleBlockMessage(message)`: `getLatestBlock().catch(() => ({height: -1,
hash: null}))`, then the height/linkage/signature checks, then
`saveBlock`.  Signature verification (a callback chasing the validator's
public key) is abstracted as the predicate `sigOk`. -/
def handleBlockMessage (st : ChainState) (b : Block) (sigOk : Block → Bool) :
    ChainState × GossipResult :=
  let latestHeight : ℤ := match st.latest with | some lb => lb.height | none => -1
  let latestHash : Option String := match st.latest with | some lb => some lb.hash | none => none
  if b.height ≤ latestHeight then (st, .ignoredHeight)
  else if b.height > latestHeight + 1 then (st, .triggeredSync)
  else if 0 ≤ latestHeight ∧ some b.previousHash ≠ latestHash then (st, .badPrevHash)
  else if sigOk b = false then (st, .badSignature)
  else ((saveBlock st b).1, .applied)

/-- The block-pulling loop of `syncWithPeer`: request the block at height
`i` (`fetch` stands for the peer's response to
`request('/doucya/sync/block', {height: i})`), apply it with `saveBlock`,
and continue with `i+1` while applications succeed; a failed application
throws and aborts the loop.  Returns the final state and the trace of
`(requested height, application succeeded)` events in order.  The fuel
`n` is the number of heights left up to the peer's height. -/
def syncRun (fetch : ℤ → Block) : ChainState → ℤ → ℕ → ChainState × List (ℤ × Bool)
  | st, _, 0 => (st, [])
  | st, i, n+1 =>
    match saveBlock st (fetch i) with
    | (st1, true) =>
      match syncRun fetch st1 (i+1) n with
      | (st2, tr) => (st2, (i, true) :: tr)
    | (st1, false) => (st1, [(i, false)])

/-- The height comparison of `syncWithPeer`: blocks are pulled only when
the peer's height exceeds ours, starting at `ourHeight + 1` and ending at
`peerHeight`. -/
def syncWithPeerBlocks (fetch : ℤ → Block) (st : ChainState)
    (ourHeight peerHeight : ℤ) : ChainState × List (ℤ × Bool) :=
  if peerHeight > ourHeight then
    syncRun fetch st (ourHeight + 1) (peerHeight - ourHeight).toNat
  else (st, [])

/-- `[i, i+1, ..., i+n-1]`. -/
def intRange : ℤ → ℕ → List ℤ
  | _, 0 => []
  | i, n+1 => i :: intRange (i+1) n

theorem syncRun_spec (fetch : ℤ → Block) :
    ∀ (n : ℕ) (st : ChainState) (i : ℤ),
      ((syncRun fetch st i n).2.map Prod.fst =
        intRange i (syncRun fetch st i n).2.length) ∧
      (∀ p ∈ (syncRun fetch st i n).2.dropLast, p.2 = true) ∧
      ((syncRun fetch st i n).1 =
        (syncRun fetch st i n).2.foldl (fun s p => (saveBlock s (fetch p.1)).1) st) ∧
      (syncRun fetch st i n).2.length ≤ n ∧
      ((syncRun fetch st i n).2.length < n →
        ∃ h, (syncRun fetch st i n).2.getLast? = some (h, false)) ∧
      ((∀ p ∈ (syncRun fetch st i n).2, p.2 = true) →
        (syncRun fetch st i n).2.length = n)
  | 0, st, i => by simp [syncRun, intRange]
  | n+1, st, i => by
    rcases hsb : saveBlock st (fetch i) with ⟨st1, ok⟩
    cases ok with
    | false =>
      have hs : syncRun fetch st i (n+1) = (st1, [(i, false)]) := by
        simp [syncRun, hsb]
      rw [hs]
      refine ⟨by simp [intRange], by simp, by simp [hsb], ?_, ?_, ?_⟩
      · simp only [List.length_cons, List.length_nil]
        omega
      · intro _
        exact ⟨i, rfl⟩
      · intro hall
        exact absurd (hall (i, false) (by simp)) (by simp)
    | true =>
      rcases hrec : syncRun fetch st1 (i+1) n with ⟨st2, tr⟩
      have hs : syncRun fetch st i (n+1) = (st2, (i, true) :: tr) := by
        simp [syncRun, hsb, hrec]
      obtain ⟨ih1, ih2, ih3, ih4, ih5, ih6⟩ := syncRun_spec fetch n st1 (i+1)
      rw [hrec] at ih1 ih2 ih3 ih4 ih5 ih6
      have e1 : ((st2, tr) : ChainState × List (ℤ × Bool)).1 = st2 := rfl
      have e2 : ((st2, tr) : ChainState × List (ℤ × Bool)).2 = tr := rfl
      rw [e2] at ih1 ih2 ih4 ih5 ih6
      rw [e1, e2] at ih3
      rw [hs]
      refine ⟨?_, ?_, ?_, ?_, ?_, ?_⟩
      · simp only [List.map_cons, List.length_cons]
        rw [ih1]
        rfl
      · cases tr with
        | nil => simp
        | cons q qs =>
          intro p hp
          have hd : ((i, true) :: q :: qs).dropLast =
              (i, true) :: (q :: qs).dropLast := by
            simp [List.dropLast]
          rw [hd, List.mem_cons] at hp
          rcases hp with rfl | hp
          · rfl
          · exact ih2 p hp
      · rw [List.foldl_cons]
        have hst1 : (saveBlock st (fetch i)).1 = st1 := by rw [hsb]
        simpa [hst1] using ih3
      · simp only [List.length_cons]
        omega
      · intro hlt
        simp only [List.length_cons] at hlt
        obtain ⟨h', hl⟩ := ih5 (by omega)
        cases tr with
        | nil => simp at hl
        | cons q qs =>
          exact ⟨h', by rw [List.getLast?_cons_cons]; exact hl⟩
      · intro hall
        have htr : ∀ p ∈ tr, p.2 = true :=
          fun p hp => hall p (List.mem_cons_of_mem _ hp)
        simp only [List.length_cons, ih6 htr]

/-- C6.  Confirmed: whenever a peer sync observes peer height `P`
strictly above local height `L`, the loop requests and applies blocks at
heights `L+1, L+2, ...` consecutively in strictly increasing order, one
at a time (the state passed to each application is the fold of the
previous applications); every requested height except possibly the last
succeeded (no request is issued after a failure); at most `P - L` heights
are requested; stopping early happens only because the last application
failed; and if no application fails the loop reaches exactly height `P`. -/
theorem c6_sync_increasing_stop_at_failure (fetch : ℤ → Block)
    (st : ChainState) (L P : ℤ) (hLP : L < P) :
    ((syncWithPeerBlocks fetch st L P).2.map Prod.fst =
      intRange (L+1) (syncWithPeerBlocks fetch st L P).2.length) ∧
    (∀ p ∈ (syncWithPeerBlocks fetch st L P).2.dropLast, p.2 = true) ∧
    ((syncWithPeerBlocks fetch st L P).1 =
      (syncWithPeerBlocks fetch st L P).2.foldl
        (fun s p => (saveBlock s (fetch p.1)).1) st) ∧
    (syncWithPeerBlocks fetch st L P).2.length ≤ (P - L).toNat ∧
    ((syncWithPeerBlocks fetch st L P).2.length < (P - L).toNat →
      ∃ h, (syncWithPeerBlocks fetch st L P).2.getLast? = some (h, false)) ∧
    ((∀ p ∈ (syncWithPeerBlocks fetch st L P).2, p.2 = true) →
      (syncWithPeerBlocks fetch st L P).2.length = (P - L).toNat) := by
  have hr : syncWithPeerBlocks fetch st L P =
      syncRun fetch st (L+1) (P - L).toNat := by
    rw [syncWithPeerBlocks, if_pos hLP]
  rw [hr]
  exact syncRun_spec fetch (P - L).toNat st (L+1)

/-- Witness for `c6_sync_increasing_stop_at_failure`: a concrete
one-block sync (local height 0, peer height 1). -/
theorem c6_sync_witness :
    (0 : ℤ) < 1 ∧
    (((syncWithPeerBlocks (fun _ => c2WitBlock) c2CexState 0 1).2.map Prod.fst =
        intRange (0+1) (syncWithPeerBlocks (fun _ => c2WitBlock) c2CexState 0 1).2.length) ∧
      (∀ p ∈ (syncWithPeerBlocks (fun _ => c2WitBlock) c2CexState 0 1).2.dropLast,
        p.2 = true) ∧
      ((syncWithPeerBlocks (fun _ => c2WitBlock) c2CexState 0 1).1 =
        (syncWithPeerBlocks (fun _ => c2WitBlock) c2CexState 0 1).2.foldl
          (fun s p => (saveBlock s ((fun _ => c2WitBlock) p.1)).1) c2CexState) ∧
      (syncWithPeerBlocks (fun _ => c2WitBlock) c2CexState 0 1).2.length ≤
        ((1 : ℤ) - 0).toNat ∧
      ((syncWithPeerBlocks (fun _ => c2WitBlock) c2CexState 0 1).2.length <
          ((1 : ℤ) - 0).toNat →
        ∃ h, (syncWithPeerBlocks (fun _ => c2WitBlock) c2CexState 0 1).2.getLast? =
          some (h, false)) ∧
      ((∀ p ∈ (syncWithPeerBlocks (fun _ => c2WitBlock) c2CexState 0 1).2, p.2 = true) →
        (syncWithPeerBlocks (fun _ => c2WitBlock) c2CexState 0 1).2.length =
          ((1 : ℤ) - 0).toNat)) :=
  ⟨by decide,
    c6_sync_increasing_stop_at_failure (fun _ => c2WitBlock) c2CexState 0 1 (by decide)⟩

/-! ## C3: replay protection exists on the gossip path only -/

/-- `saveBlock` as reached from the network paths (gossip and peer
sync): the block came from `Block.fromJSON`, which leaves
`data.transactions` as *plain* JSON objects without the `Transaction`
prototype (`Block.toJSON` embeds the transactions verbatim, so the
block's own record writes still succeed).  The Lean `Transaction` value
carries the fields of such an object; what differs is the execution
path.  For height > 0 the loop's first `processTransaction` call throws
`TypeError: transaction.toJSON is not a function` at its leading
`TX_<hash>` record write — after `LATEST_BLOCK` (and the unmodelled
`BLOCK_<hash>` / `BLOCK_HEIGHT_<n>` records) were already overwritten,
and before any balance write — so a non-empty transaction list aborts
with balances and `currentHeight` unchanged, while an empty list
completes and sets `currentHeight` to the block's height.  The genesis
branch (height ≤ 0) reads only plain properties (`tx.type`, `tx.to`,
`tx.amount`) and therefore runs to completion even on plain objects. -/
def saveBlockFromNetwork (st : ChainState) (b : Block) : ChainState × Bool :=
  let st0 := { st with latest := some b }
  if b.height > 0 then
    match b.transactions with
    | [] => ({ st0 with currentHeight := b.height }, true)
    | _ :: _ => (st0, false)
  else
    ({ st0 with
        balances := genesisBalances st0.balances b.transactions
        currentHeight := b.height }, true)

/-- The block-pulling loop of `syncWithPeer` over network-fetched blocks:
the same loop as `syncRun`, with `saveBlockFromNetwork` as the
application step (every block the loop applies was deserialized by
`Block.fromJSON` from the peer's response). -/
def syncRunNetwork (fetch : ℤ → Block) :
    ChainState → ℤ → ℕ → ChainState × List (ℤ × Bool)
  | st, _, 0 => (st, [])
  | st, i, n+1 =>
    match saveBlockFromNetwork st (fetch i) with
    | (st1, true) =>
      match syncRunNetwork fetch st1 (i+1) n with
      | (st2, tr) => (st2, (i, true) :: tr)
    | (st1, false) => (st1, [(i, false)])

/-- `syncWithPeer`'s height comparison, over network-fetched blocks. -/
def syncWithPeerBlocksNetwork (fetch : ℤ → Block) (st : ChainState)
    (ourHeight peerHeight : ℤ) : ChainState × List (ℤ × Bool) :=
  if peerHeight > ourHeight then
    syncRunNetwork fetch st (ourHeight + 1) (peerHeight - ourHeight).toNat
  else (st, [])

/-- The local chain head at height 2. -/
def c3Latest : Block :=
  { height := 2, previousHash := "h1", transactions := [],
    validator := "Douv", timestamp := 0, hash := "h2", signature := none }

/-- A node state at height 2. -/
def c3State : ChainState :=
  { balances := fun _ => 0, validators := [], whitelists := fun _ => [],
    latest := some c3Latest, currentHeight := 2 }

/-- A stale block (height 1 ≤ the node's current height 2) carrying a
plain `MINT` transaction of 5 DOU. -/
def c3StaleBlock : Block :=
  { height := 1, previousHash := "h0", transactions := [c2WitTx],
    validator := "Douv", timestamp := 0, hash := "h1x", signature := none }

/-- A stale block with an empty transaction list (height 1 ≤ 2). -/
def c3EmptyStaleBlock : Block :=
  { height := 1, previousHash := "h0", transactions := [],
    validator := "Douv", timestamp := 0, hash := "h1e", signature := none }

/-- A peer response whose `height` field is 0, carrying a plain `MINT`
of 5 DOU: `saveBlock` routes it to the genesis branch. -/
def c3Height0Block : Block :=
  { height := 0, previousHash := "h0", transactions := [c2WitTx],
    validator := "Douv", timestamp := 0, hash := "h0x", signature := none }

/-- C3.  The claim says every path that applies external blocks rejects a
block of height ≤ the current height with no state change (no balance
mutated, no block record overwritten, `currentHeight` unchanged).  The
gossip path (`handleBlockMessage`) does reject such blocks unchanged —
but `saveBlock` itself has no height check and `syncWithPeer` passes
each fetched block straight to it, so at local height 2, with a peer
reporting height 3, the sync path violates every part of the claim:
(i) a stale height-1 block with transactions aborts only by accident —
the `TypeError` at the plain transaction's `toJSON` — yet the
`LATEST_BLOCK` head record has already been overwritten; (ii) a stale
height-1 block with an *empty* transaction list is applied to
completion, rolling `currentHeight` back from 2 to 1; (iii) a response
whose height field is 0 reaches the genesis branch (which never touches
`toJSON`), overwriting the balance of `Doux` to 5 and rolling
`currentHeight` back to 0. -/
theorem c3_stale_block_applied_via_sync :
    (handleBlockMessage c3State c3StaleBlock (fun _ => true)).1 = c3State ∧
    (handleBlockMessage c3State c3StaleBlock (fun _ => true)).2 =
      GossipResult.ignoredHeight ∧
    (handleBlockMessage c3State c3EmptyStaleBlock (fun _ => true)).2 =
      GossipResult.ignoredHeight ∧
    (handleBlockMessage c3State c3Height0Block (fun _ => true)).2 =
      GossipResult.ignoredHeight ∧
    c3StaleBlock.height ≤ c3State.currentHeight ∧
    c3EmptyStaleBlock.height ≤ c3State.currentHeight ∧
    c3Height0Block.height ≤ c3State.currentHeight ∧
    (saveBlockFromNetwork c3State c3StaleBlock).2 = false ∧
    (saveBlockFromNetwork c3State c3StaleBlock).1.latest = some c3StaleBlock ∧
    (saveBlockFromNetwork c3State c3StaleBlock).1.currentHeight = 2 ∧
    (saveBlockFromNetwork c3State c3StaleBlock).1.balances "Doux" = 0 ∧
    (syncWithPeerBlocksNetwork (fun _ => c3EmptyStaleBlock) c3State 2 3).1.currentHeight
      = 1 ∧
    (syncWithPeerBlocksNetwork (fun _ => c3EmptyStaleBlock) c3State 2 3).1.latest =
      some c3EmptyStaleBlock ∧
    (syncWithPeerBlocksNetwork (fun _ => c3Height0Block) c3State 2 3).1.balances "Doux"
      = 5 ∧
    (syncWithPeerBlocksNetwork (fun _ => c3Height0Block) c3State 2 3).1.currentHeight
      = 0 ∧
    c3State.balances "Doux" = 0 := by
  refine ⟨rfl, rfl, rfl, rfl, by decide, by decide, by decide, rfl, rfl, rfl, rfl,
    ?_, ?_, ?_, ?_, rfl⟩
  · rw [syncWithPeerBlocksNetwork, if_pos (show (3 : ℤ) > 2 by decide),
      show ((3 : ℤ) - 2).toNat = 1 from rfl]
    rfl
  · rw [syncWithPeerBlocksNetwork, if_pos (show (3 : ℤ) > 2 by decide),
      show ((3 : ℤ) - 2).toNat = 1 from rfl]
    rfl
  · rw [syncWithPeerBlocksNetwork, if_pos (show (3 : ℤ) > 2 by decide),
      show ((3 : ℤ) - 2).toNat = 1 from rfl]
    show genesisBalances c3State.balances c3Height0Block.transactions "Doux" = 5
    simp [genesisBalances, c3State, c3Height0Block, c2WitTx, Function.update]
  · rw [syncWithPeerBlocksNetwork, if_pos (show (3 : ℤ) > 2 by decide),
      show ((3 : ℤ) - 2).toNat = 1 from rfl]
    rfl

/-! ## C4: the per-type validity predicate (`isTransactionValid`) -/

/-- `isTransactionValid(transaction)`: hash self-consistency first, then
the per-type rule, evaluated against the current balances, the validator
`Map` and `this.validatorMinDeposit`; an unknown type is invalid. -/
def isTransactionValid (t : Transaction) (balances : String → ℚ)
    (validators : List (String × ℚ)) (validatorMinDeposit : ℚ) : Bool :=
  if t.verifyHash = false then false
  else if t.type = "MINT" ∨ t.type = "REWARD" then true
  else if t.type = "TRANSFER" then
    decide (balances (keyOf t.fromAddr) ≥ t.amount + t.fee)
  else if t.type = "VALIDATOR_REGISTER" then
    decide (balances (keyOf t.fromAddr) ≥ t.amount + t.fee) &&
      decide (t.amount ≥ validatorMinDeposit)
  else if t.type = "VALIDATOR_WITHDRAW" then vhas validators (keyOf t.fromAddr)
  else if t.type = "MESSAGE" then
    if t.fee > 0 then decide (balances (keyOf t.fromAddr) ≥ t.fee) else true
  else if t.type = "WHITELIST" then true
  else false

/-- Modelled from the spec's validity table (C4's claimed behaviour), to
be compared against `isTransactionValid`: identical type-by-type rules,
except that `MESSAGE` is claimed valid iff `fee == 0` or the sender
balance covers the fee. -/
def specTransactionValid (t : Transaction) (balances : String → ℚ)
    (validators : List (String × ℚ)) (validatorMinDeposit : ℚ) : Bool :=
  if t.type = "MINT" ∨ t.type = "REWARD" ∨ t.type = "WHITELIST" then true
  else if t.type = "TRANSFER" then
    decide (balances (keyOf t.fromAddr) ≥ t.amount + t.fee)
  else if t.type = "VALIDATOR_REGISTER" then
    decide (balances (keyOf t.fromAddr) ≥ t.amount + t.fee) &&
      decide (t.amount ≥ validatorMinDeposit)
  else if t.type = "VALIDATOR_WITHDRAW" then vhas validators (keyOf t.fromAddr)
  else if t.type = "MESSAGE" then
    decide (t.fee = 0) || decide (balances (keyOf t.fromAddr) ≥ t.fee)
  else false

/-- The amended table: the `MESSAGE` rule the code actually implements is
"`fee ≤ 0`, or the sender balance covers the fee" (the code only checks
the balance when `fee > 0`). -/
def specTransactionValidAmended (t : Transaction) (balances : String → ℚ)
    (validators : List (String × ℚ)) (validatorMinDeposit : ℚ) : Bool :=
  if t.type = "MINT" ∨ t.type = "REWARD" ∨ t.type = "WHITELIST" then true
  else if t.type = "TRANSFER" then
    decide (balances (keyOf t.fromAddr) ≥ t.amount + t.fee)
  else if t.type = "VALIDATOR_REGISTER" then
    decide (balances (keyOf t.fromAddr) ≥ t.amount + t.fee) &&
      decide (t.amount ≥ validatorMinDeposit)
  else if t.type = "VALIDATOR_WITHDRAW" then vhas validators (keyOf t.fromAddr)
  else if t.type = "MESSAGE" then
    decide (t.fee ≤ 0) || decide (balances (keyOf t.fromAddr) ≥ t.fee)
  else false

/-- The seven transaction types of the program. -/
def allTxTypes : List String :=
  ["MINT", "REWARD", "TRANSFER", "VALIDATOR_REGISTER", "VALIDATOR_WITHDRAW",
   "MESSAGE", "WHITELIST"]

/-- A hash-consistent `MESSAGE` transaction with a *negative* fee (as a
malicious peer can produce via `Transaction.fromJSON`, which accepts
arbitrary field values and keeps the sender-supplied hash). -/
def c4CexTx : Transaction :=
  Transaction.withRecomputedHash
    { type := "MESSAGE", fromAddr := some "Doua", toAddr := some "Doub",
      amount := 0, fee := -1, data := [], timestamp := 0, hash := [],
      signature := none, senderReward := 0, receiverReward := 0 }

/-- C4 (counterexample).  For the hash-consistent `MESSAGE` transaction
`c4CexTx` with `fee = -1` and sender balance `-2`, the code's predicate
returns `true` (it only checks the balance when `fee > 0`) while the
claimed table — valid iff `fee == 0` or balance ≥ fee — returns `false`:
the predicate is not exactly the claimed table. -/
theorem c4_counterexample :
    c4CexTx.verifyHash = true ∧
    isTransactionValid c4CexTx (fun _ => -2) [] 50 = true ∧
    specTransactionValid c4CexTx (fun _ => -2) [] 50 = false := by
  have hv : c4CexTx.verifyHash = true := Transaction.verifyHash_withRecomputedHash _
  have hty : c4CexTx.type = "MESSAGE" := rfl
  have hfee : c4CexTx.fee = -1 := rfl
  refine ⟨hv, ?_, ?_⟩
  · rw [isTransactionValid, hv]
    simp [hty, hfee]
  · rw [specTransactionValid]
    simp [hty, hfee, keyOf]

/-- C4 (amended).  For every hash-consistent transaction of one of the
seven types, `isTransactionValid` agrees with the claimed type table
amended at `MESSAGE`: valid iff `fee ≤ 0` (not `fee == 0`) or the sender
balance is at least the fee — the code skips the balance check for any
non-positive fee. -/
theorem c4_validity_table_amended (t : Transaction) (balances : String → ℚ)
    (validators : List (String × ℚ)) (validatorMinDeposit : ℚ)
    (hhash : t.verifyHash = true) (htype : t.type ∈ allTxTypes) :
    isTransactionValid t balances validators validatorMinDeposit =
      specTransactionValidAmended t balances validators validatorMinDeposit := by
  simp only [allTxTypes, List.mem_cons, List.not_mem_nil, or_false] at htype
  rw [isTransactionValid, hhash]
  rcases htype with h | h | h | h | h | h | h
  · simp [specTransactionValidAmended, h]
  · simp [specTransactionValidAmended, h]
  · simp [specTransactionValidAmended, h]
  · simp [specTransactionValidAmended, h]
  · simp [specTransactionValidAmended, h]
  · by_cases hf : t.fee > 0
    · have hf2 : ¬ t.fee ≤ 0 := by linarith
      simp [specTransactionValidAmended, h, hf, hf2]
    · have hf2 : t.fee ≤ 0 := by linarith
      simp [specTransactionValidAmended, h, hf, hf2]
  · simp [specTransactionValidAmended, h]

/-- A hash-consistent `TRANSFER` used to witness `c4_validity_table_amended`. -/
def c4WitTx : Transaction :=
  Transaction.withRecomputedHash
    { type := "TRANSFER", fromAddr := some "Doua", toAddr := some "Doub",
      amount := 5, fee := 1, data := [], timestamp := 0, hash := [],
      signature := none, senderReward := 0, receiverReward := 0 }

/-- Witness for `c4_validity_table_amended` at the concrete transaction
`c4WitTx`. -/
theorem c4_validity_table_amended_witness :
    isTransactionValid c4WitTx (fun _ => 10) [] 50 =
      specTransactionValidAmended c4WitTx (fun _ => 10) [] 50 :=
  c4_validity_table_amended c4WitTx (fun _ => 10) [] 50
    (Transaction.verifyHash_withRecomputedHash _)
    (by simp [allTxTypes, show c4WitTx.type = "TRANSFER" from rfl])

/-! ## The validator registry (`src/blockchain/validator.js`) -/

/-- `ValidatorManager.registerValidator(address, amount)`: throws when
the amount is below the minimum deposit; otherwise accumulates
`currentStake + amount` into the `Map`. -/
def registerValidatorRun (validators : List (String × ℚ)) (minimumDeposit : ℚ)
    (address : String) (amount : ℚ) : Except String (List (String × ℚ)) :=
  if amount < minimumDeposit then
    .error "below minimum deposit"
  else
    .ok (vset validators address ((vget validators address).getD 0 + amount))

/-- The validator-sync phase of `syncWithPeer`: for each entry of the
peer's `validatorSet` response, register it only when the address is not
already a local validator.  A `registerValidator` throw (remote stake
below the local minimum deposit) aborts the loop; entries registered
before the throw persist.  Returns the registry and whether the loop
completed. -/
def syncValidators (minimumDeposit : ℚ) :
    List (String × ℚ) → List (String × ℚ) → List (String × ℚ) × Bool
  | lv, [] => (lv, true)
  | lv, (address, amount) :: rest =>
    if vhas lv address then syncValidators minimumDeposit lv rest
    else
      match registerValidatorRun lv minimumDeposit address amount with
      | .ok lv1 => syncValidators minimumDeposit lv1 rest
      | .error _ => (lv, false)

/-- C8.  Confirmed: the validator-sync loop never touches an existing
local entry — every address registered locally before the sync keeps its
exact stake — and any entry present afterwards but not before was added
from the peer's set with the remote stake (union, not replace). -/
theorem c8_validator_sync_union (minimumDeposit : ℚ) :
    ∀ (remote lv : List (String × ℚ)),
      (∀ a x, vget lv a = some x →
        vget (syncValidators minimumDeposit lv remote).1 a = some x) ∧
      (∀ a x, vget (syncValidators minimumDeposit lv remote).1 a = some x →
        vget lv a = some x ∨ (a, x) ∈ remote)
  | [], lv => by simp [syncValidators]
  | (address, amount) :: rest, lv => by
    by_cases hh : vhas lv address
    · have hs : syncValidators minimumDeposit lv ((address, amount) :: rest) =
          syncValidators minimumDeposit lv rest := by
        simp [syncValidators, hh]
      obtain ⟨ih1, ih2⟩ := c8_validator_sync_union minimumDeposit rest lv
      rw [hs]
      exact ⟨ih1, fun a x hx => (ih2 a x hx).imp id (List.mem_cons_of_mem _)⟩
    · by_cases hmin : amount < minimumDeposit
      · have hs : syncValidators minimumDeposit lv ((address, amount) :: rest) =
            (lv, false) := by
          simp [syncValidators, hh, registerValidatorRun, hmin]
        rw [hs]
        exact ⟨fun a x hx => hx, fun a x hx => Or.inl hx⟩
      · have hget0 : vget lv address = none := by
          rcases hvg : vget lv address with _ | x
          · rfl
          · exact absurd (by simp [vhas, hvg]) hh
        have hs : syncValidators minimumDeposit lv ((address, amount) :: rest) =
            syncValidators minimumDeposit (vset lv address amount) rest := by
          simp [syncValidators, hh, registerValidatorRun, hmin, hget0]
        obtain ⟨ih1, ih2⟩ :=
          c8_validator_sync_union minimumDeposit rest (vset lv address amount)
        rw [hs]
        constructor
        · intro a x hx
          have hne : ¬ address = a := by
            intro he
            rw [← he] at hx
            rw [hget0] at hx
            exact Option.noConfusion hx
          apply ih1
          rw [vget_vset, if_neg hne]
          exact hx
        · intro a x hx
          rcases ih2 a x hx with hcase | hcase
          · rw [vget_vset] at hcase
            by_cases he : address = a
            · rw [if_pos he] at hcase
              right
              have hax : amount = x := Option.some.inj hcase
              rw [← he, ← hax]
              exact List.mem_cons_self _ _
            · rw [if_neg he] at hcase
              exact Or.inl hcase
          · exact Or.inr (List.mem_cons_of_mem _ hcase)

/-- Witness for `c8_validator_sync_union`: syncing the remote set
`{Douw: 60}` against the local registry `{Douv: 70}` leaves `Douv`'s
stake untouched. -/
theorem c8_validator_sync_union_witness :
    vget (syncValidators 50 [("Douv", 70)] [("Douw", 60)]).1 "Douv" = some 70 :=
  (c8_validator_sync_union 50 [("Douw", 60)] [("Douv", 70)]).1 "Douv" 70 rfl

/-- `ValidatorManager.selectNextValidator()`'s walk: accumulate stakes in
`Map` iteration order and return the first address whose cumulative stake
reaches the draw. -/
def selectLoop : List (String × ℚ) → ℚ → ℚ → Option String
  | [], _, _ => none
  | (address, stake) :: rest, random, cumulativeStake =>
    if random ≤ cumulativeStake + stake then some address
    else selectLoop rest random (cumulativeStake + stake)

/-- `selectNextValidator()`, parametrized by the random draw
(`Math.random() * totalStake` in the source): `null` on an empty
registry; otherwise the stake-weighted walk with the registry's first
entry as fallback. -/
def selectNextValidator (validators : List (String × ℚ)) (random : ℚ) :
    Option String :=
  match validators with
  | [] => none
  | (a0, _) :: _ =>
    match selectLoop validators random 0 with
    | some a => some a
    | none => some a0

theorem selectLoop_mem (random : ℚ) :
    ∀ (validators : List (String × ℚ)) (c : ℚ) (a : String),
      selectLoop validators random c = some a → a ∈ validators.map Prod.fst
  | [], _, _, h => by simp [selectLoop] at h
  | (address, stake) :: rest, c, a, h => by
    rw [selectLoop] at h
    by_cases hr : random ≤ c + stake
    · rw [if_pos hr] at h
      simp [Option.some.inj h]
    · rw [if_neg hr] at h
      simp only [List.map_cons, List.mem_cons]
      exact Or.inr (selectLoop_mem random rest (c + stake) a h)

/-- C9.  Confirmed: `selectNextValidator` returns `null` (without
throwing) on an empty registry, and on a non-empty registry returns the
address of some registered validator — for *every* draw, in particular
for every draw in `[0, totalStake)` (the final fallback to the first
entry makes the walk total). -/
theorem c9_selectNextValidator_total (validators : List (String × ℚ))
    (random : ℚ) :
    selectNextValidator [] random = none ∧
    (validators ≠ [] → ∃ a, selectNextValidator validators random = some a ∧
      a ∈ validators.map Prod.fst) := by
  refine ⟨rfl, ?_⟩
  intro hne
  match validators with
  | [] => exact absurd rfl hne
  | (a0, s0) :: rest =>
    rw [selectNextValidator]
    rcases hloop : selectLoop ((a0, s0) :: rest) random 0 with _ | a
    · exact ⟨a0, rfl, by simp⟩
    · exact ⟨a, rfl, selectLoop_mem random _ 0 a hloop⟩

/-- Witness for `c9_selectNextValidator_total` on the registry
`{Douv: 10}` with draw 5. -/
theorem c9_selectNextValidator_witness :
    ∃ a, selectNextValidator [("Douv", 10)] 5 = some a ∧
      a ∈ ([("Douv", 10)] : List (String × ℚ)).map Prod.fst :=
  (c9_selectNextValidator_total [("Douv", 10)] 5).2 (by simp)

/-- `processValidatorRegistration`'s registry effect (the balance debit
is in `processValidatorRegistration` above): `currentStake + amount`. -/
theorem processValidatorRegistration_stake (st : ChainState) (t : Transaction)
    (a : ℚ) (hstake : vget st.validators (keyOf t.fromAddr) = some a) :
    vget (processValidatorRegistration st t).validators (keyOf t.fromAddr) =
      some (a + t.amount) := by
  rw [processValidatorRegistration]
  show vget (vset st.validators (keyOf t.fromAddr) _) (keyOf t.fromAddr) = _
  rw [vget_vset, if_pos rfl, hstake]
  simp

/-- C10.  Confirmed: registering more stake for an already-registered
address accumulates — `ValidatorManager.registerValidator` records
`a + b` when the current stake is `a` and `b` (≥ the minimum deposit) is
registered, and the `VALIDATOR_REGISTER` state transition
(`processValidatorRegistration`) does the same unconditionally. -/
theorem c10_stake_accumulates (lv : List (String × ℚ)) (minimumDeposit : ℚ)
    (st : ChainState) (t : Transaction) (address : String) (a b : ℚ)
    (hstake : vget lv address = some a) (hmin : ¬ b < minimumDeposit) :
    (∃ lv1, registerValidatorRun lv minimumDeposit address b = .ok lv1 ∧
      vget lv1 address = some (a + b)) ∧
    (vget st.validators (keyOf t.fromAddr) = some a →
      vget (processValidatorRegistration st t).validators (keyOf t.fromAddr) =
        some (a + t.amount)) := by
  constructor
  · refine ⟨vset lv address ((vget lv address).getD 0 + b), ?_, ?_⟩
    · rw [registerValidatorRun, if_neg hmin]
    · rw [vget_vset, if_pos rfl, hstake]
      simp
  · exact processValidatorRegistration_stake st t a

/-- A height-2 state whose registry holds `{Douv: 70}`, used to witness
`c10_stake_accumulates`. -/
def c10WitState : ChainState :=
  { balances := fun _ => 100, validators := [("Douv", 70)],
    whitelists := fun _ => [], latest := none, currentHeight := 2 }

/-- A `VALIDATOR_REGISTER` transaction staking 60 more from `Douv`. -/
def c10WitTx : Transaction :=
  { type := "VALIDATOR_REGISTER", fromAddr := some "Douv", toAddr := none,
    amount := 60, fee := 1/10, data := [], timestamp := 0, hash := [],
    signature := none, senderReward := 0, receiverReward := 0 }

/-- Witness for `c10_stake_accumulates` at stake 70 plus 60 more. -/
theorem c10_stake_accumulates_witness :
    (∃ lv1, registerValidatorRun [("Douv", 70)] 50 "Douv" 60 = .ok lv1 ∧
      vget lv1 "Douv" = some (70 + 60)) ∧
    (vget c10WitState.validators (keyOf c10WitTx.fromAddr) = some 70 →
      vget (processValidatorRegistration c10WitState c10WitTx).validators
        (keyOf c10WitTx.fromAddr) = some (70 + c10WitTx.amount)) :=
  c10_stake_accumulates [("Douv", 70)] 50 c10WitState c10WitTx "Douv" 70 60
    rfl (by norm_num)

/-! ## C7: the message rate limiter and `sendMessage` (`src/node.js`)

Constants from `config.js`: `maxMessagesPerHour = 200`,
`maxMessagesToAddressPerHour = 30`, `sendReward = 0.75`,
`receiveReward = 0.25`, `nonWhitelistedFee = 0.75`. -/

/-- One sender's entry of `this.messageCounts.hourly`:
`{ total, perAddress }`. -/
structure HourlyStats where
  total : ℕ
  perAddress : List (String × ℕ)
deriving DecidableEq, Repr

/-- Lookup in an insertion-ordered map (JavaScript `Map.get` /
object-key access). -/
def aget {β : Type} : List (String × β) → String → Option β
  | [], _ => none
  | (k, v) :: rest, a => if k = a then some v else aget rest a

/-- JavaScript `Map.set` / object-key assignment: replace in place or
append. -/
def aset {β : Type} : List (String × β) → String → β → List (String × β)
  | [], a, x => [(a, x)]
  | (k, v) :: rest, a, x =>
    if k = a then (a, x) :: rest else (k, v) :: aset rest a x

/-- `checkMessageRateLimits(fromAddress, toAddress)`: `true` when both
limits pass; `false` models the `RateLimitExceeded` throw (total ≥ 200,
or ≥ 30 to this recipient, within the current hourly window). -/
def checkMessageRateLimits (messageCounts : List (String × HourlyStats))
    (fromAddr toAddr : String) : Bool :=
  let hourlyStats := (aget messageCounts fromAddr).getD ⟨0, []⟩
  if hourlyStats.total ≥ 200 then false
  else
    let perAddressCount := (aget hourlyStats.perAddress toAddr).getD 0
    if perAddressCount ≥ 30 then false
    else true

/-- `updateMessageCount(fromAddress, toAddress)`: create the entry on
demand, then `total++` and `perAddress[toAddress]++`. -/
def updateMessageCount (messageCounts : List (String × HourlyStats))
    (fromAddr toAddr : String) : List (String × HourlyStats) :=
  let hourlyStats := (aget messageCounts fromAddr).getD ⟨0, []⟩
  let perAddressCount := (aget hourlyStats.perAddress toAddr).getD 0
  aset messageCounts fromAddr
    ⟨hourlyStats.total + 1, aset hourlyStats.perAddress toAddr (perAddressCount + 1)⟩

/-- `resetMessageCounts()`: the hourly interval clears the whole map. -/
def resetMessageCounts (_messageCounts : List (String × HourlyStats)) :
    List (String × HourlyStats) :=
  []

/-- How `sendMessage` can fail. -/
inductive SendMessageError where
  | rateLimitExceeded : SendMessageError
  | invalidTransactionHash : SendMessageError
deriving DecidableEq, Repr

/-- `Blockchain.addTransaction(transaction)`: reject (`'Invalid
transaction hash'`) unless `verifyHash()`, else push onto the pending
pool and return the hash. -/
def addTransaction (pendingTransactions : List Transaction) (t : Transaction) :
    Except SendMessageError (List Transaction × HashPreimage) :=
  if t.verifyHash = false then .error .invalidTransactionHash
  else .ok (pendingTransactions ++ [t], t.hash)

/-- The node state `sendMessage` touches: the hourly rate-limit counters
and the blockchain's pending pool. -/
structure NodeMsgState where
  messageCounts : List (String × HourlyStats)
  pendingTransactions : List Transaction
deriving DecidableEq, Repr

/-- The `MESSAGE` transaction exactly as `sendMessage` submits it:
built by `Transaction.createMessage` (which hashes before the reward
fields exist), then mutated *after* hashing — `senderReward`/
`receiverReward` set for a whitelisted recipient, `fee` (re)set
otherwise.  Signing does not alter the hash and is omitted. -/
def mkOutgoingMessageTx (fromAddr toAddr encryptedMessage : String)
    (isWhitelisted : Bool) (timestamp : ℤ) : Transaction :=
  let tx0 := Transaction.createMessage fromAddr toAddr encryptedMessage
    isWhitelisted timestamp
  if isWhitelisted then { tx0 with senderReward := 3/4, receiverReward := 1/4 }
  else { tx0 with fee := 3/4 }

/-- `Node.sendMessage(fromAddress, toAddress, message)`: check the rate
limits (throwing `RateLimitExceeded`), build and mutate the `MESSAGE`
transaction (`mkOutgoingMessageTx`), submit it through `addTransaction`,
and only then `updateMessageCount`.  Encryption is external, so the
already-encrypted content is a parameter. -/
def sendMessage (st : NodeMsgState) (fromAddr toAddr encryptedMessage : String)
    (isWhitelisted : Bool) (timestamp : ℤ) :
    Except SendMessageError (NodeMsgState × HashPreimage) :=
  if checkMessageRateLimits st.messageCounts fromAddr toAddr = false then
    .error .rateLimitExceeded
  else
    match addTransaction st.pendingTransactions
        (mkOutgoingMessageTx fromAddr toAddr encryptedMessage isWhitelisted timestamp) with
    | .error e => .error e
    | .ok (pool, txHash) =>
      .ok ({ messageCounts := updateMessageCount st.messageCounts fromAddr toAddr,
             pendingTransactions := pool }, txHash)

theorem calculateHash_length (t : Transaction) : t.calculateHash.length = 9 := by
  simp [Transaction.calculateHash, txDataPreimage]

theorem verifyHash_eq_false_of_length (t : Transaction) (h : t.hash.length ≠ 9) :
    t.verifyHash = false := by
  apply decide_eq_false
  intro he
  exact h (by rw [he, calculateHash_length])

theorem mkOutgoingMessageTx_hash_length (fromAddr toAddr encryptedMessage : String)
    (isWhitelisted : Bool) (timestamp : ℤ) :
    (mkOutgoingMessageTx fromAddr toAddr encryptedMessage isWhitelisted
      timestamp).hash.length = 7 := by
  cases isWhitelisted <;>
    simp [mkOutgoingMessageTx, Transaction.createMessage, Transaction.make,
      txDataPreimage]

/-- C7.  The claim describes the rate limiter's thresholds (200 per hour,
30 per recipient, reset hourly) — which `checkMessageRateLimits` /
`updateMessageCount` / `resetMessageCounts` do implement — but its
premise fails: no message submission ever succeeds.  Whenever the
rate-limit check passes, `sendMessage` *always* fails with `'Invalid
transaction hash'`, because the transaction's hash was computed before
the `senderReward`/`receiverReward` fields existed and the fields are
further mutated after hashing; `updateMessageCount` is unreachable, so
the counters never advance and the 201st-message behaviour can never be
exhibited. -/
theorem c7_sendMessage_always_invalid_hash (st : NodeMsgState)
    (fromAddr toAddr encryptedMessage : String) (isWhitelisted : Bool)
    (timestamp : ℤ)
    (hlimit : checkMessageRateLimits st.messageCounts fromAddr toAddr = true) :
    sendMessage st fromAddr toAddr encryptedMessage isWhitelisted timestamp =
      .error SendMessageError.invalidTransactionHash := by
  have hbad : (mkOutgoingMessageTx fromAddr toAddr encryptedMessage isWhitelisted
      timestamp).verifyHash = false := by
    apply verifyHash_eq_false_of_length
    rw [mkOutgoingMessageTx_hash_length]
    omega
  have hsc : addTransaction st.pendingTransactions
      (mkOutgoingMessageTx fromAddr toAddr encryptedMessage isWhitelisted timestamp) =
      .error .invalidTransactionHash := by
    rw [addTransaction, if_pos hbad]
  rw [sendMessage, if_neg (by simp [hlimit]), hsc]

/-- Witness for `c7_sendMessage_always_invalid_hash`: the very first
whitelisted message submission from a fresh node fails with the
invalid-hash error. -/
theorem c7_sendMessage_witness :
    checkMessageRateLimits ([] : List (String × HourlyStats)) "Doua" "Doub" = true ∧
    sendMessage ⟨[], []⟩ "Doua" "Doub" "hello" true 0 =
      .error SendMessageError.invalidTransactionHash :=
  ⟨rfl, c7_sendMessage_always_invalid_hash ⟨[], []⟩ "Doua" "Doub" "hello" true 0 rfl⟩
